import Mathlib

/-!
Shallow embedding of `sdssdli` (`src/sdssdli/controller.py`), a client library
for Digital Loggers switched power-distribution units.

The pure data and control logic of `DLIController` is modelled as Lean
functions.  The HTTP transport is modelled explicitly: an operation that would
issue a request instead returns the request it would send, and the device
response body is passed in as an argument.  Python exceptions become
`Except Err`.  Machine details that the logic never relies on (digest
authentication, JSON encoding) are outside the model.
-/

namespace Sdssdli

/-- Errors raised by the controller.  In the source they are `ValueError` or
`KeyError` with a message; here each message becomes a constructor. -/
inductive Err where
  /-- Source message: Cannot find a matching outlet for name. -/
  | outletNotFound (name : String)
  /-- Source message: At least two characters are required for fuzzy matching. -/
  | fuzzyTooShort
  /-- Source message: Multiple outlet matches found for name. -/
  | ambiguousOutlet (name : String)
  /-- Source message: No outlets defined. -/
  | noOutlets
  /-- Source message: No outlets found.  (registry still empty after reload) -/
  | emptyRegistry
  /-- A Python KeyError escaping from an outlet-to-name dictionary lookup. -/
  | keyError (outlet : Int)
  /-- Source message: Cannot find password file or user data. -/
  | credentialResolution
deriving Repr, DecidableEq

/-- Lower-casing of a string, character by character (Python `str.lower()` for
the ASCII outlet names and keys this library handles). -/
def lowerStr (s : String) : String :=
  String.mk (s.data.map Char.toLower)

/-- One entry of the case-insensitive name-to-outlet dictionary
(`CaseInsensitiveDict` in the source): the lower-cased lookup key, the
original-case outlet name, and the outlet index. -/
structure Entry where
  key : String
  name : String
  outlet : Nat
deriving Repr, DecidableEq

/-- Insertion into the case-insensitive dictionary: if the lower-cased key is
already present, the stored original name and value are replaced in place
(a Python dict update keeps the insertion position of the key); otherwise the entry is
appended. -/
def ciInsert (d : List Entry) (name : String) (outlet : Nat) : List Entry :=
  if d.any (fun e => e.key = lowerStr name) then
    d.map (fun e => if e.key = lowerStr name then ⟨lowerStr name, name, outlet⟩ else e)
  else
    d ++ [⟨lowerStr name, name, outlet⟩]

/-- Building a `CaseInsensitiveDict` from an association list, left to right. -/
def ciOfList (l : List (String × Nat)) : List Entry :=
  l.foldl (fun d p => ciInsert d p.1 p.2) []

/-- Case-insensitive dictionary lookup (`name in d` / `d[name]`). -/
def ciLookup (d : List Entry) (name : String) : Option Nat :=
  (d.find? (fun e => e.key = lowerStr name)).map (fun e => e.outlet)

/-- The original-case keys of the dictionary in insertion order
(`list(self._name_to_outlet)`). -/
def ciNames (d : List Entry) : List String :=
  d.map (fun e => e.name)

/-- The outlet registry of a `DLIController`: the case-insensitive
`_name_to_outlet` dictionary and the plain `_outlet_to_name` dictionary. -/
structure Registry where
  nameToOutlet : List Entry
  outletToName : List (Nat × String)
deriving Repr, DecidableEq

/-- `reload`, given the device response for `/relay/outlets/all;/name/` (a JSON
array of outlet names in device index order).  Rebuilds both dictionaries:
`CaseInsensitiveDict(zip(data, range(len(data))))` and
`dict(zip(range(len(data)), data))`. -/
def reload (data : List String) : Registry :=
  { nameToOutlet := ciOfList (data.zip (List.range data.length)),
    outletToName := (List.range data.length).zip data }

/-- Lookup in `_outlet_to_name` (a Python dict keyed by `int`, so the probe may
be any integer). -/
def lookupOutlet (m : List (Nat × String)) (i : Int) : Option String :=
  (m.find? (fun p => (p.1 : Int) = i)).map (fun p => p.2)

/-- The regular-expression test the source performs for fuzzy matching:
`re.match(rf"^\x7bname\x7d", oname, re.IGNORECASE)`, i.e. the raw query string
is interpolated, unescaped, into a pattern anchored at the start of the outlet
name.  This embeds the fragment of Python regex semantics in which the pattern
character `.` matches any single character and every other character matches
itself case-insensitively; it is faithful exactly when the query contains no
regex metacharacter other than `.`. -/
def reMatchesAtStart : List Char → List Char → Bool
  | [], _ => true
  | _ :: _, [] => false
  | p :: ps, c :: cs =>
    if p = '.' then reMatchesAtStart ps cs
    else if p.toLower = c.toLower then reMatchesAtStart ps cs
    else false

/-- Characters with a special meaning in Python regular expressions. -/
def isRegexMeta (c : Char) : Bool :=
  c = '.' || c = '^' || c = '$' || c = '*' || c = '+' || c = '?' ||
  c = '\x7b' || c = '\x7d' || c = '[' || c = ']' || c = '\\' ||
  c = '|' || c = '(' || c = ')'

/-- Literal case-insensitive starts-with test, as the spec words it: the name
starts with the identifier, comparing characters case-insensitively.  This is
the spec-side definition, to be compared with `reMatchesAtStart`. -/
def startsWithCIList : List Char → List Char → Bool
  | [], _ => true
  | _ :: _, [] => false
  | p :: ps, c :: cs => p.toLower = c.toLower && startsWithCIList ps cs

/-- Literal case-insensitive starts-with on strings (spec-side). -/
def startsWithCI (query s : String) : Bool :=
  startsWithCIList query.data s.data

/-- The fuzzy scan loop of `get_outlet_number`: fold over the dictionary items
accumulating `(n_matches, last_match)`, both initialised to `0`. -/
def fuzzyScan (d : List Entry) (name : String) : Nat × Nat :=
  d.foldl
    (fun acc e =>
      if reMatchesAtStart name.data e.name.data then (acc.1 + 1, e.outlet)
      else acc)
    (0, 0)

/-- `get_outlet_number(name, use_fuzzy)`: exact case-insensitive lookup first;
otherwise fail if fuzzy is disabled; otherwise require at least two characters;
otherwise scan for regex-at-start matches and demand exactly one. -/
def getOutletNumber (d : List Entry) (name : String) (useFuzzy : Bool) :
    Except Err Nat :=
  match ciLookup d name with
  | Option.some outlet => Except.ok outlet
  | Option.none =>
    if useFuzzy = false then Except.error (Err.outletNotFound name)
    else if name.length < 2 then Except.error Err.fuzzyTooShort
    else if (fuzzyScan d name).1 = 0 then Except.error (Err.outletNotFound name)
    else if 1 < (fuzzyScan d name).1 then Except.error (Err.ambiguousOutlet name)
    else Except.ok (fuzzyScan d name).2

/-- A single outlet identifier: a (possibly negative) Python `int`, or a name
string. -/
inductive OutletId where
  | num (i : Int)
  | name (s : String)
deriving Repr, DecidableEq

/-- The `outlets` argument of the outlet operations: a single identifier or a
list of identifiers. -/
inductive Outlets where
  | one (o : OutletId)
  | many (l : List OutletId)
deriving Repr, DecidableEq

/-- The wrapping `outlets = [outlets]` performed by `_get_outlet_indices` when
given a single `int` or `str`. -/
def Outlets.toList : Outlets → List OutletId
  | Outlets.one o => [o]
  | Outlets.many l => l

/-- The Python comparison `outlets == "all"`: true only for the single string
`"all"` (an `int` or a `list` never equals a `str`). -/
def Outlets.isAll : Outlets → Bool
  | Outlets.one (OutletId.name s) => s = "all"
  | _ => false

/-- Resolution of one element inside `_get_outlet_indices`: an `int` is kept
unchanged, a string goes through `get_outlet_number` with the default
`use_fuzzy=True`. -/
def resolveId (d : List Entry) : OutletId → Except Err Int
  | OutletId.num i => Except.ok i
  | OutletId.name s => (getOutletNumber d s true).map Int.ofNat

/-- The loop of `_get_outlet_indices`: resolve each element in order,
propagating the first failure. -/
def resolveList (d : List Entry) : List OutletId → Except Err (List Int)
  | [] => Except.ok []
  | o :: rest =>
    match resolveId d o with
    | Except.error e => Except.error e
    | Except.ok i => (resolveList d rest).map (fun t => i :: t)

/-- `_get_outlet_indices(outlets)`: wrap a single identifier into a list, then
resolve each element in order. -/
def getOutletIndices (d : List Entry) (outlets : Outlets) :
    Except Err (List Int) :=
  resolveList d outlets.toList

/-- `_check_outlets()`: if the registry already has outlets, do nothing;
otherwise warn and reload once (the device response for the reload is the
`reloadData` argument), and fail if the registry is still empty.  The returned
`Nat` counts the reload attempts performed. -/
def checkOutlets (reg : Registry) (reloadData : List String) :
    Except Err (Registry × Nat) :=
  if 0 < reg.nameToOutlet.length then Except.ok (reg, 0)
  else if (reload reloadData).nameToOutlet.length = 0 then
    Except.error Err.emptyRegistry
  else Except.ok (reload reloadData, 1)

/-- The PUT request `_switch` would issue: its route and the body value. -/
structure PutRequest where
  route : String
  value : Bool
deriving Repr, DecidableEq

/-- The route selector built for a list of indices:
`"=" + ",".join(map(str, indices))`. -/
def indexSelector (indices : List Int) : String :=
  "=" ++ String.intercalate "," (indices.map toString)

/-- `_switch(outlets, value)`: check outlets, pick the route selector (`all;`
verbatim for the string `"all"`, otherwise resolve to indices and fail if the
list is empty), then issue the PUT and return `True`.  The PUT that would be
issued is returned alongside the `True` result. -/
def switch (reg : Registry) (reloadData : List String) (outlets : Outlets)
    (value : Bool) : Except Err (PutRequest × Bool) :=
  match checkOutlets reg reloadData with
  | Except.error e => Except.error e
  | Except.ok rn =>
    if outlets.isAll then
      Except.ok ({ route := "/relay/outlets/all;/state/", value := value }, true)
    else
      match getOutletIndices rn.1.nameToOutlet outlets with
      | Except.error e => Except.error e
      | Except.ok indices =>
        if indices.length = 0 then Except.error Err.noOutlets
        else
          Except.ok
            ({ route := "/relay/outlets/" ++ indexSelector indices ++ "/state/",
               value := value }, true)

/-- The name list `state` builds for a subset request:
`[self._outlet_to_name[outlet] for outlet in indices]`, failing with a
`KeyError` at the first index absent from the dictionary. -/
def namesFor (m : List (Nat × String)) : List Int → Except Err (List String)
  | [] => Except.ok []
  | i :: rest =>
    match lookupOutlet m i with
    | Option.none => Except.error (Err.keyError i)
    | Option.some n => (namesFor m rest).map (fun ns => n :: ns)

/-- Everything `state(outlets)` does before issuing its GET request: check
outlets, build the route selector and the ordered name list.  A failure here
means the state request is never sent. -/
def statePrepare (reg : Registry) (reloadData : List String)
    (outlets : Outlets) : Except Err (String × List String) :=
  match checkOutlets reg reloadData with
  | Except.error e => Except.error e
  | Except.ok rn =>
    if outlets.isAll then
      Except.ok ("all;", ciNames rn.1.nameToOutlet)
    else
      match getOutletIndices rn.1.nameToOutlet outlets with
      | Except.error e => Except.error e
      | Except.ok indices =>
        if indices.length = 0 then Except.error Err.noOutlets
        else
          match namesFor rn.1.outletToName indices with
          | Except.error e => Except.error e
          | Except.ok names => Except.ok (indexSelector indices, names)

/-- Python dict insertion for string keys: an existing key keeps its position
and has its value overwritten, a new key is appended. -/
def pyDictInsert (d : List (String × Bool)) (k : String) (v : Bool) :
    List (String × Bool) :=
  if d.any (fun p => p.1 = k) then
    d.map (fun p => if p.1 = k then (k, v) else p)
  else
    d ++ [(k, v)]

/-- Python `dict(pairs)` construction from an association list. -/
def pyDict (l : List (String × Bool)) : List (String × Bool) :=
  l.foldl (fun d p => pyDictInsert d p.1 p.2) []

/-- The value `state` returns once the device has answered with the list of
outlet states: `dict(zip(names, states))`. -/
def stateResult (names : List String) (states : List Bool) :
    List (String × Bool) :=
  pyDict (names.zip states)

/-- The `password` argument of the constructor: absent (`None`), a string, or a
`pathlib.Path` object. -/
inductive PasswordArg where
  | none
  | str (s : String)
  | path (s : String)
deriving Repr, DecidableEq

/-- The filesystem and YAML environment the constructor consults: home
expansion of a path, whether a file exists at an (expanded) path, and the
result of looking up `dli.<name>.<user>` in the YAML file at an (expanded)
path, already stringified. -/
structure SecretsEnv where
  expandUser : String → String
  isFile : String → Bool
  dliLookup : String → String → String → Option String

/-- The raw string value of the password argument after the `None` default is
applied. -/
def PasswordArg.raw : PasswordArg → String
  | PasswordArg.none => "~/.secrets.yaml"
  | PasswordArg.str s => s
  | PasswordArg.path s => s

/-- Credential resolution in `DLIController.__init__`: default the argument to
`~/.secrets.yaml`; if a file exists at the expanded path, look up
`dli.<name>.<user>` in it; use the stored value when found; when not found,
fail if and only if the argument was a `pathlib.Path` object, and otherwise
fall through to using the original string verbatim as the password. -/
def resolvePassword (env : SecretsEnv) (name user : String)
    (arg : PasswordArg) : Except Err String :=
  if env.isFile (env.expandUser arg.raw) then
    match env.dliLookup (env.expandUser arg.raw) name user with
    | Option.some pw => Except.ok pw
    | Option.none =>
      match arg with
      | PasswordArg.path _ => Except.error Err.credentialResolution
      | _ => Except.ok arg.raw
  else
    Except.ok arg.raw

/-! ### Helper lemmas -/

/-- `find?` returns a given element of a list whose keys are pairwise distinct,
as soon as that element carries the key searched for. -/
theorem find?_key (k : String) :
    ∀ (d : List Entry), d.Pairwise (fun a b => a.key ≠ b.key) →
      ∀ e ∈ d, e.key = k → d.find? (fun x => x.key = k) = Option.some e := by
  intro d
  induction d with
  | nil => intro _ e he; cases he
  | cons x xs ih =>
    intro hd e he hk
    rcases List.pairwise_cons.mp hd with ⟨hx, hxs⟩
    rcases List.mem_cons.mp he with he | he
    · subst he
      exact List.find?_cons_of_pos _ (by simp [hk])
    · rw [List.find?_cons_of_neg]
      · exact ih hxs e he hk
      · have : x.key ≠ e.key := hx e he
        simp [hk ▸ this]

/-- Inserting a key absent from the dictionary appends the new entry. -/
theorem ciInsert_fresh (d : List Entry) (n : String) (o : Nat)
    (h : ∀ e ∈ d, e.key ≠ lowerStr n) :
    ciInsert d n o = d ++ [⟨lowerStr n, n, o⟩] := by
  unfold ciInsert
  rw [if_neg]
  intro hany
  rcases List.any_eq_true.mp hany with ⟨e, he, hk⟩
  exact h e he (by simpa using hk)

/-- Building a dictionary from pairs with pairwise case-insensitively distinct
names keeps every pair, in order. -/
theorem foldl_ciInsert_distinct :
    ∀ (l : List (String × Nat)) (acc : List Entry),
      l.Pairwise (fun a b => lowerStr a.1 ≠ lowerStr b.1) →
      (∀ p ∈ l, ∀ e ∈ acc, e.key ≠ lowerStr p.1) →
      l.foldl (fun d p => ciInsert d p.1 p.2) acc
        = acc ++ l.map (fun p => ⟨lowerStr p.1, p.1, p.2⟩) := by
  intro l
  induction l with
  | nil => intro acc _ _; simp
  | cons x xs ih =>
    intro acc hpw hacc
    rcases List.pairwise_cons.mp hpw with ⟨hx, hxs⟩
    have hstep : ciInsert acc x.1 x.2 = acc ++ [⟨lowerStr x.1, x.1, x.2⟩] :=
      ciInsert_fresh acc x.1 x.2 (fun e he => hacc x (List.mem_cons_self x xs) e he)
    have hrec := ih (acc ++ [⟨lowerStr x.1, x.1, x.2⟩]) hxs (by
      intro p hp e he
      rcases List.mem_append.mp he with he | he
      · exact hacc p (List.mem_cons_of_mem x hp) e he
      · have : e = ⟨lowerStr x.1, x.1, x.2⟩ := by simpa using he
        rw [this]
        exact hx p hp)
    calc (x :: xs).foldl (fun d p => ciInsert d p.1 p.2) acc
        = xs.foldl (fun d p => ciInsert d p.1 p.2) (ciInsert acc x.1 x.2) := rfl
      _ = xs.foldl (fun d p => ciInsert d p.1 p.2) (acc ++ [⟨lowerStr x.1, x.1, x.2⟩]) := by
          rw [hstep]
      _ = acc ++ [⟨lowerStr x.1, x.1, x.2⟩] ++ xs.map (fun p => ⟨lowerStr p.1, p.1, p.2⟩) := hrec
      _ = acc ++ (x :: xs).map (fun p => ⟨lowerStr p.1, p.1, p.2⟩) := by simp

/-- `ciOfList` on pairwise case-insensitively distinct names is a plain map. -/
theorem ciOfList_eq_map (l : List (String × Nat))
    (h : l.Pairwise (fun a b => lowerStr a.1 ≠ lowerStr b.1)) :
    ciOfList l = l.map (fun p => ⟨lowerStr p.1, p.1, p.2⟩) := by
  have := foldl_ciInsert_distinct l [] h (by intro p _ e he; cases he)
  simpa [ciOfList] using this

/-- Insertion never empties the dictionary. -/
theorem ciInsert_ne_nil (d : List Entry) (n : String) (o : Nat) :
    ciInsert d n o ≠ [] := by
  unfold ciInsert
  by_cases h : d.any (fun e => e.key = lowerStr n)
  · rw [if_pos h]
    rcases List.any_eq_true.mp h with ⟨e, he, _⟩
    intro hmap
    rw [List.map_eq_nil_iff] at hmap
    rw [hmap] at he
    cases he
  · rw [if_neg h]
    simp

/-- Folding insertions over a non-empty dictionary keeps it non-empty. -/
theorem foldl_ciInsert_ne_nil :
    ∀ (l : List (String × Nat)) (acc : List Entry), acc ≠ [] →
      l.foldl (fun d p => ciInsert d p.1 p.2) acc ≠ [] := by
  intro l
  induction l with
  | nil => intro acc h; simpa
  | cons x xs ih =>
    intro acc _
    exact ih (ciInsert acc x.1 x.2) (ciInsert_ne_nil acc x.1 x.2)

/-- A dictionary built from a non-empty pair list is non-empty. -/
theorem ciOfList_ne_nil (l : List (String × Nat)) (h : l ≠ []) :
    ciOfList l ≠ [] := by
  rcases l with _ | ⟨x, xs⟩
  · exact absurd rfl h
  · unfold ciOfList
    exact foldl_ciInsert_ne_nil xs (ciInsert [] x.1 x.2) (ciInsert_ne_nil [] x.1 x.2)

/-- After a reload from a non-empty name list the registry is non-empty. -/
theorem reload_ne_nil (data : List String) (h : data ≠ []) :
    (reload data).nameToOutlet ≠ [] := by
  apply ciOfList_ne_nil
  intro hz
  have hlen : (data.zip (List.range data.length)).length = 0 := by rw [hz]; rfl
  rw [List.length_zip, List.length_range] at hlen
  simp only [min_self] at hlen
  exact h (List.length_eq_zero.mp hlen)

/-- Case analysis of `_check_outlets`: already-loaded registries are left
untouched with no reload; an empty registry triggers exactly one reload, which
fails only when the device reports no names at all. -/
theorem checkOutlets_cases (reg : Registry) (data : List String) :
    (reg.nameToOutlet ≠ [] → checkOutlets reg data = Except.ok (reg, 0)) ∧
    (reg.nameToOutlet = [] → data ≠ [] →
      checkOutlets reg data = Except.ok (reload data, 1)) ∧
    (reg.nameToOutlet = [] → data = [] →
      checkOutlets reg data = Except.error Err.emptyRegistry) := by
  refine ⟨?_, ?_, ?_⟩
  · intro h
    unfold checkOutlets
    rw [if_pos]
    exact Nat.pos_of_ne_zero (fun h0 => h (List.length_eq_zero.mp h0))
  · intro h hd
    unfold checkOutlets
    rw [if_neg, if_neg]
    · exact fun h0 => reload_ne_nil data hd (List.length_eq_zero.mp h0)
    · rw [h]; simp
  · intro h hd
    unfold checkOutlets
    rw [if_neg, if_pos]
    · rw [hd]; rfl
    · rw [h]; simp

/-! ### Claims -/

/-- C1, counterexample: for a controller whose registry is empty and stays
empty after the automatic reload (device reports no names), `on("all")` and
`off("all")` do not succeed: `_switch` calls `_check_outlets` before looking at
the `"all"` selector, so both fail with the empty-registry error instead of
issuing their PUT and returning true. -/
theorem C1_counterexample :
    switch (reload []) [] (Outlets.one (OutletId.name "all")) true
        = Except.error Err.emptyRegistry ∧
    switch (reload []) [] (Outlets.one (OutletId.name "all")) false
        = Except.error Err.emptyRegistry :=
  ⟨rfl, rfl⟩

/-- C1, amended: `on("all")`/`off("all")` require a loaded registry exactly as
`state("all")` does — with an empty registry that stays empty after the single
automatic reload, all of them fail with the empty-registry error; the `"all"`
selector bypasses only name resolution, so once the registry is non-empty the
PUT is issued regardless of which names are registered. -/
theorem C1_amended (reg : Registry) (v : Bool) :
    (reg.nameToOutlet = [] →
      switch reg [] (Outlets.one (OutletId.name "all")) v
          = Except.error Err.emptyRegistry ∧
      statePrepare reg [] (Outlets.one (OutletId.name "all"))
          = Except.error Err.emptyRegistry) ∧
    (reg.nameToOutlet ≠ [] → ∀ reloadData,
      switch reg reloadData (Outlets.one (OutletId.name "all")) v
        = Except.ok ({ route := "/relay/outlets/all;/state/", value := v }, true)) := by
  constructor
  · intro h
    have hc : checkOutlets reg [] = Except.error Err.emptyRegistry :=
      (checkOutlets_cases reg []).2.2 h rfl
    constructor
    · unfold switch; rw [hc]
    · unfold statePrepare; rw [hc]
  · intro h reloadData
    have hc : checkOutlets reg reloadData = Except.ok (reg, 0) :=
      (checkOutlets_cases reg reloadData).1 h
    unfold switch
    rw [hc]
    rfl

/-- C1, witness for the amended claim: with one registered outlet, `off("all")`
issues its PUT with the `all;` selector. -/
theorem C1_witness :
    switch (reload ["Fan"]) ["X"] (Outlets.one (OutletId.name "all")) false
      = Except.ok ({ route := "/relay/outlets/all;/state/", value := false }, true) :=
  (C1_amended (reload ["Fan"]) false).2 (by decide) ["X"]

/-- C7: `_check_outlets` performs at most one reload: none when the registry is
already non-empty, exactly one when it is empty, failing with the
empty-registry error exactly when the reloaded registry is still empty (which
happens exactly when the device reports no names). -/
theorem C7_single_reload (reg : Registry) (data : List String) :
    (reg.nameToOutlet ≠ [] → checkOutlets reg data = Except.ok (reg, 0)) ∧
    (reg.nameToOutlet = [] → data ≠ [] →
      checkOutlets reg data = Except.ok (reload data, 1)) ∧
    (reg.nameToOutlet = [] → data = [] →
      checkOutlets reg data = Except.error Err.emptyRegistry) :=
  checkOutlets_cases reg data

/-- C7, witness: a loaded registry is returned unchanged with zero reloads; an
empty registry with an empty device response fails. -/
theorem C7_witness :
    checkOutlets (reload ["Fan"]) ["A", "B"] = Except.ok (reload ["Fan"], 0) ∧
    checkOutlets (reload []) [] = Except.error Err.emptyRegistry :=
  ⟨(C7_single_reload (reload ["Fan"]) ["A", "B"]).1 (by decide),
   (C7_single_reload (reload []) []).2.2 rfl rfl⟩

/-- C8: with no case-insensitive exact match, `get_outlet_number` fails with
the outlet-not-found error when fuzzy matching is disabled, and with the
fuzzy-too-short error when fuzzy matching is enabled but the query has fewer
than two characters. -/
theorem C8_fuzzy_guards (d : List Entry) (s : String)
    (h : ciLookup d s = Option.none) :
    getOutletNumber d s false = Except.error (Err.outletNotFound s) ∧
    (s.length < 2 → getOutletNumber d s true = Except.error Err.fuzzyTooShort) := by
  constructor
  · unfold getOutletNumber
    rw [h]
    rfl
  · intro hlen
    unfold getOutletNumber
    rw [h]
    simp [hlen]

/-- C8, witness: registry with one outlet `Fan`: `z` with fuzzy disabled is not
found, `z` with fuzzy enabled is too short. -/
theorem C8_witness :
    getOutletNumber (ciOfList [("Fan", 0)]) "z" false
        = Except.error (Err.outletNotFound "z") ∧
    getOutletNumber (ciOfList [("Fan", 0)]) "z" true
        = Except.error Err.fuzzyTooShort := by
  have h := C8_fuzzy_guards (ciOfList [("Fan", 0)]) "z" (by decide)
  exact ⟨h.1, h.2 (by decide)⟩

/-- C3: when a file exists at the (home-expanded) password path and the YAML
lookup of `dli.<name>.<user>` yields nothing, construction fails with the
credential-resolution error if the argument was a `pathlib.Path`, while the
default path falls through to using the original string verbatim as the
password. -/
theorem C3_credential_asymmetry (env : SecretsEnv) (name user p : String)
    (hfile : env.isFile (env.expandUser p) = true)
    (hlook : env.dliLookup (env.expandUser p) name user = Option.none)
    (hdfile : env.isFile (env.expandUser "~/.secrets.yaml") = true)
    (hdlook : env.dliLookup (env.expandUser "~/.secrets.yaml") name user
        = Option.none) :
    resolvePassword env name user (PasswordArg.path p)
        = Except.error Err.credentialResolution ∧
    resolvePassword env name user PasswordArg.none
        = Except.ok "~/.secrets.yaml" := by
  constructor
  · unfold resolvePassword
    have hraw : (PasswordArg.path p).raw = p := rfl
    rw [hraw, if_pos hfile, hlook]
  · unfold resolvePassword
    have hraw : (PasswordArg.none).raw = "~/.secrets.yaml" := rfl
    rw [hraw, if_pos hdfile, hdlook]

/-- C3, witness: an environment in which every path is a file and no lookup
succeeds. -/
theorem C3_witness :
    resolvePassword ⟨id, fun _ => true, fun _ _ _ => Option.none⟩ "n" "u"
        (PasswordArg.path "/tmp/x") = Except.error Err.credentialResolution ∧
    resolvePassword ⟨id, fun _ => true, fun _ _ _ => Option.none⟩ "n" "u"
        PasswordArg.none = Except.ok "~/.secrets.yaml" :=
  C3_credential_asymmetry ⟨id, fun _ => true, fun _ _ _ => Option.none⟩
    "n" "u" "/tmp/x" rfl rfl rfl rfl

/-- C2, counterexample: the fuzzy scan is a regular-expression match, not a
literal prefix match.  With registry `Fan: 0` the query `".."` literally
prefixes no registered name, so the claim demands the outlet-not-found error —
but the code interpolates the query unescaped into `re.match` and `.` matches
any character, so the scan finds one match and returns outlet `0`. -/
theorem C2_counterexample :
    ((ciOfList [("Fan", 0)]).filter (fun e => startsWithCI ".." e.name)).length
        = 0 ∧
    getOutletNumber (ciOfList [("Fan", 0)]) ".." true = Except.ok 0 :=
  ⟨rfl, rfl⟩

/-- C5, counterexample: a reload whose device response repeats a name does not
map the name at position 0 to 0 (dict insertion overwrites, keeping the last
index), and the two mappings are not mutually inverse (they have different
sizes). -/
theorem C5_counterexample :
    ciLookup (reload ["A", "A"]).nameToOutlet "A" = Option.some 1 ∧
    lookupOutlet (reload ["A", "A"]).outletToName 0 = Option.some "A" ∧
    (reload ["A", "A"]).nameToOutlet.length = 1 ∧
    (reload ["A", "A"]).outletToName.length = 2 :=
  ⟨rfl, rfl, rfl, rfl⟩

/-- One step of index resolution: integers pass through unchanged. -/
theorem resolveList_nums (d : List Entry) :
    ∀ ints : List Int, resolveList d (ints.map OutletId.num) = Except.ok ints := by
  intro ints
  induction ints with
  | nil => rfl
  | cons i rest ih =>
    simp only [List.map_cons, resolveList, resolveId, ih]
    rfl

/-- A successful resolution has one output index per input identifier, in
order. -/
theorem resolveList_ok_spec (d : List Entry) :
    ∀ (l : List OutletId) (idx : List Int), resolveList d l = Except.ok idx →
      idx.length = l.length ∧
      ∀ (k : Nat) (hk : k < l.length) (hk2 : k < idx.length),
        resolveId d (l.get ⟨k, hk⟩) = Except.ok (idx.get ⟨k, hk2⟩) := by
  intro l
  induction l with
  | nil =>
    intro idx h
    simp only [resolveList] at h
    injection h with h
    subst h
    exact ⟨rfl, fun k hk _ => absurd hk (by simp)⟩
  | cons o rest ih =>
    intro idx h
    simp only [resolveList] at h
    cases hro : resolveId d o with
    | error e => rw [hro] at h; cases h
    | ok i =>
      rw [hro] at h
      cases hrr : resolveList d rest with
      | error e => rw [hrr] at h; cases h
      | ok t =>
        rw [hrr] at h
        simp only [Except.map] at h
        injection h with h
        subst h
        rcases ih t hrr with ⟨hlen, helem⟩
        refine ⟨by simp [hlen], ?_⟩
        intro k hk hk2
        cases k with
        | zero => exact hro
        | succ k =>
          exact helem k (by simpa using hk) (by simpa using hk2)

/-- With a loaded registry, an empty outlet list makes both `_switch` and the
preparation phase of `state` fail with the no-outlets error. -/
theorem empty_list_no_outlets (reg : Registry) (rd : List String) (v : Bool)
    (h : reg.nameToOutlet ≠ []) :
    switch reg rd (Outlets.many []) v = Except.error Err.noOutlets ∧
    statePrepare reg rd (Outlets.many []) = Except.error Err.noOutlets := by
  have hc : checkOutlets reg rd = Except.ok (reg, 0) := (checkOutlets_cases reg rd).1 h
  constructor
  · unfold switch
    rw [hc]
    rfl
  · unfold statePrepare
    rw [hc]
    rfl

/-- C4: an exact case-insensitive name match takes precedence: for a dictionary
with pairwise-distinct keys, any identifier whose lower-casing equals the key of a
registered entry resolves to the index of that entry, whatever the casing of
the input and whatever the fuzzy flag, with no ambiguity check against other
names the identifier may be a prefix of. -/
theorem C4_exact_match (d : List Entry) (s : String) (e : Entry) (fuzzy : Bool)
    (hwf : d.Pairwise (fun a b => a.key ≠ b.key))
    (he : e ∈ d) (hk : e.key = lowerStr s) :
    getOutletNumber d s fuzzy = Except.ok e.outlet := by
  unfold getOutletNumber ciLookup
  rw [find?_key (lowerStr s) d hwf e he hk]
  rfl

/-- C4, witness: registry Light-1, Light-2; the query Light-1 is also a prefix
of no other name but of itself, and the exact match returns 0 with fuzzy
enabled. -/
theorem C4_witness :
    getOutletNumber (ciOfList [("Light-1", 0), ("Light-2", 1)]) "Light-1" true
      = Except.ok 0 :=
  C4_exact_match (ciOfList [("Light-1", 0), ("Light-2", 1)]) "Light-1"
    ⟨"light-1", "Light-1", 0⟩ true (by decide) (by decide) (by decide)

/-- C9: `_get_outlet_indices` accepts a single integer, a single string, or a
mixed sequence; integers pass through unvalidated, order and duplicates are
preserved (one output index per input identifier, elementwise); and with a
loaded registry both `_switch` and `state` fail with the no-outlets error when
the resolved index list is empty. -/
theorem C9_index_resolution (d : List Entry) (reg : Registry)
    (rd : List String) (v : Bool) (ints : List Int) (i : Int)
    (h : reg.nameToOutlet ≠ []) :
    getOutletIndices d (Outlets.one (OutletId.num i)) = Except.ok [i] ∧
    getOutletIndices d (Outlets.many (ints.map OutletId.num)) = Except.ok ints ∧
    (∀ (l : List OutletId) (idx : List Int),
        resolveList d l = Except.ok idx →
        idx.length = l.length ∧
        ∀ (k : Nat) (hk : k < l.length) (hk2 : k < idx.length),
          resolveId d (l.get ⟨k, hk⟩) = Except.ok (idx.get ⟨k, hk2⟩)) ∧
    switch reg rd (Outlets.many []) v = Except.error Err.noOutlets ∧
    statePrepare reg rd (Outlets.many []) = Except.error Err.noOutlets := by
  refine ⟨rfl, ?_, resolveList_ok_spec d, empty_list_no_outlets reg rd v h⟩
  exact resolveList_nums d ints

/-- C9, witness: integers, including duplicates and a negative one, pass
through; the empty list is rejected. -/
theorem C9_witness :
    getOutletIndices (ciOfList [("Fan", 0)]) (Outlets.one (OutletId.num 7))
        = Except.ok [7] ∧
    getOutletIndices (ciOfList [("Fan", 0)])
        (Outlets.many [OutletId.num 3, OutletId.num 3, OutletId.num (-1)])
        = Except.ok [3, 3, -1] ∧
    switch (reload ["Fan"]) [] (Outlets.many []) true
        = Except.error Err.noOutlets := by
  have h := C9_index_resolution (ciOfList [("Fan", 0)]) (reload ["Fan"]) []
    true [3, 3, -1] 7 (by decide)
  exact ⟨h.1, h.2.1, h.2.2.2.1⟩

/-- C10: for a loaded registry and an integer index absent from
`_outlet_to_name`, `state` fails with the key error while building the name
list.  `statePrepare` models everything `state` does before issuing its GET
request, so this failure happens locally, before any state request reaches the
device. -/
theorem C10_state_rejects_unknown_index (reg : Registry) (rd : List String)
    (i : Int) (hne : reg.nameToOutlet ≠ [])
    (hout : ∀ p ∈ reg.outletToName, (p.1 : Int) ≠ i) :
    statePrepare reg rd (Outlets.one (OutletId.num i))
      = Except.error (Err.keyError i) := by
  have hc : checkOutlets reg rd = Except.ok (reg, 0) := (checkOutlets_cases reg rd).1 hne
  have hl : lookupOutlet reg.outletToName i = Option.none := by
    unfold lookupOutlet
    rw [List.find?_eq_none.mpr]
    · rfl
    · intro p hp
      simpa using hout p hp
  unfold statePrepare
  rw [hc]
  simp only [Outlets.isAll, Bool.false_eq_true, if_false, getOutletIndices,
    Outlets.toList, resolveList, resolveId, Except.map, namesFor, hl]
  rfl

/-- C10, witness: registry with one outlet, requesting state of index 5 fails
with the key error for 5 before any request is prepared. -/
theorem C10_witness :
    statePrepare (reload ["Fan"]) [] (Outlets.one (OutletId.num 5))
      = Except.error (Err.keyError 5) :=
  C10_state_rejects_unknown_index (reload ["Fan"]) [] 5 (by decide) (by decide)

/-- On queries free of regex metacharacters the regex-at-start test coincides
with the literal case-insensitive starts-with test of the spec. -/
theorem reMatchesAtStart_eq_startsWith :
    ∀ (ps cs : List Char), (∀ c ∈ ps, isRegexMeta c = false) →
      reMatchesAtStart ps cs = startsWithCIList ps cs := by
  intro ps
  induction ps with
  | nil => intro cs _; rfl
  | cons p ps ih =>
    intro cs h
    cases cs with
    | nil => rfl
    | cons c cs =>
      have hp : isRegexMeta p = false := h p (List.mem_cons_self p ps)
      have hdot : p ≠ '.' := by
        intro he
        rw [he] at hp
        simp [isRegexMeta] at hp
      simp only [reMatchesAtStart, startsWithCIList, if_neg hdot]
      by_cases he : p.toLower = c.toLower
      · simp [he, ih cs (fun c hc => h c (List.mem_cons_of_mem p hc))]
      · simp [he]

/-- The fuzzy fold computes the number of matches, and the outlet of the last
match (or the initial accumulator when there is none). -/
theorem fuzzyScan_go (name : String) :
    ∀ (d : List Entry) (acc : Nat × Nat),
      d.foldl
        (fun a e =>
          if reMatchesAtStart name.data e.name.data then (a.1 + 1, e.outlet)
          else a) acc
        = (acc.1 + (d.filter (fun e => reMatchesAtStart name.data e.name.data)).length,
           ((d.filter (fun e => reMatchesAtStart name.data e.name.data)).map
               (fun e => e.outlet)).getLastD acc.2) := by
  intro d
  induction d with
  | nil => intro acc; simp
  | cons e es ih =>
    intro acc
    by_cases hf : reMatchesAtStart name.data e.name.data = true
    · rw [List.foldl_cons, if_pos hf, ih]
      simp only [List.filter_cons, hf, eq_self_iff_true, if_true, List.map_cons,
        List.getLastD_cons, List.length_cons, Prod.mk.injEq]
      exact ⟨by omega, trivial⟩
    · rw [List.foldl_cons, if_neg hf, ih]
      simp [List.filter_cons, hf]

/-- Closed form of the fuzzy scan. -/
theorem fuzzyScan_spec (d : List Entry) (name : String) :
    fuzzyScan d name
      = ((d.filter (fun e => reMatchesAtStart name.data e.name.data)).length,
         ((d.filter (fun e => reMatchesAtStart name.data e.name.data)).map
             (fun e => e.outlet)).getLastD 0) := by
  have h := fuzzyScan_go name d (0, 0)
  simpa [fuzzyScan] using h

/-- C2, amended: for a query with no exact case-insensitive match, fuzzy
enabled and length at least 2 — and, as the counterexample forces, containing
no regular-expression metacharacter, since the code performs a regex match of
the raw query rather than a literal-prefix comparison — `get_outlet_number`
counts the names starting (case-insensitively) with the query: 0 matches fail
with outlet-not-found, exactly 1 returns the index of that outlet, 2 or more fail
with the ambiguity error. -/
theorem C2_amended (d : List Entry) (name : String)
    (hmeta : ∀ c ∈ name.data, isRegexMeta c = false)
    (hexact : ciLookup d name = Option.none)
    (hlen : 2 ≤ name.length) :
    ((d.filter (fun e => startsWithCI name e.name)).length = 0 →
        getOutletNumber d name true = Except.error (Err.outletNotFound name)) ∧
    (∀ e : Entry, d.filter (fun e => startsWithCI name e.name) = [e] →
        getOutletNumber d name true = Except.ok e.outlet) ∧
    (2 ≤ (d.filter (fun e => startsWithCI name e.name)).length →
        getOutletNumber d name true = Except.error (Err.ambiguousOutlet name)) := by
  have hfilter : d.filter (fun e => reMatchesAtStart name.data e.name.data)
      = d.filter (fun e => startsWithCI name e.name) :=
    List.filter_congr (fun e _ => by
      unfold startsWithCI
      exact reMatchesAtStart_eq_startsWith name.data e.name.data hmeta)
  have hscan := fuzzyScan_spec d name
  rw [hfilter] at hscan
  have hnot2 : ¬ (name.length < 2) := by omega
  refine ⟨?_, ?_, ?_⟩
  · intro h0
    unfold getOutletNumber
    rw [hexact]
    simp [hnot2, hscan, h0]
  · intro e he
    unfold getOutletNumber
    rw [hexact]
    simp [hnot2, hscan, he]
  · intro h2
    unfold getOutletNumber
    rw [hexact]
    have h0 : ¬ ((d.filter (fun e => startsWithCI name e.name)).length = 0) := by omega
    have h1 : 1 < (d.filter (fun e => startsWithCI name e.name)).length := by omega
    simp [hnot2, hscan, h0, h1]

/-- C2, witness: registry Light-1, Fan; the metacharacter-free query li has
exactly one case-insensitive prefix match and resolves to outlet 0. -/
theorem C2_witness :
    getOutletNumber (ciOfList [("Light-1", 0), ("Fan", 1)]) "li" true
      = Except.ok 0 := by
  have h := C2_amended (ciOfList [("Light-1", 0), ("Fan", 1)]) "li"
    (by decide) (by decide) (by decide)
  exact h.2.1 ⟨"light-1", "Light-1", 0⟩ (by decide)

/-- `find?` returns the element at position `k` when it satisfies the
predicate and all earlier positions do not. -/
theorem find?_at_position {α : Type _} (p : α → Bool) :
    ∀ (l : List α) (k : Nat) (hk : k < l.length),
      p (l.get ⟨k, hk⟩) = true →
      (∀ (j : Nat) (hj : j < l.length), j < k → p (l.get ⟨j, hj⟩) = false) →
      l.find? p = Option.some (l.get ⟨k, hk⟩) := by
  intro l
  induction l with
  | nil => intro k hk; exact absurd hk (Nat.not_lt_zero k)
  | cons x xs ih =>
    intro k hk hp hb
    cases k with
    | zero => exact List.find?_cons_of_pos _ hp
    | succ k =>
      have hx : p x = false := hb 0 (Nat.succ_pos _) (Nat.succ_pos k)
      rw [List.find?_cons_of_neg _ (by simp [hx])]
      exact ih k (Nat.lt_of_succ_lt_succ hk) hp
        (fun j hj hjk => hb (j + 1) (Nat.succ_lt_succ hj) (Nat.succ_lt_succ hjk))

/-- Case-insensitive distinctness of the names transfers to the zipped pair
list `reload` feeds to the dictionary constructor. -/
theorem zip_pairwise_keys (data : List String)
    (hdist : data.Pairwise (fun a b => lowerStr a ≠ lowerStr b)) :
    (data.zip (List.range data.length)).Pairwise
      (fun a b => lowerStr a.1 ≠ lowerStr b.1) := by
  have hlen : (data.zip (List.range data.length)).length = data.length := by
    simp [List.length_zip, List.length_range]
  rw [List.pairwise_iff_getElem] at hdist ⊢
  intro i j hi hj hij
  have hi2 : i < data.length := by rw [hlen] at hi; exact hi
  have hj2 : j < data.length := by rw [hlen] at hj; exact hj
  have h := hdist i j hi2 hj2 hij
  simpa [List.getElem_zip] using h

/-- C5, amended: after a reload whose device response consists of pairwise
case-insensitively distinct names, the registry maps the name at position `i`
to index `i` and index `i` back to that name, and the two dictionaries are
mutual inverses.  (The counterexample shows the restriction is necessary: a
duplicated name is overwritten by dict insertion and the claim fails.) -/
theorem C5_amended (data : List String)
    (hdist : data.Pairwise (fun a b => lowerStr a ≠ lowerStr b)) :
    (∀ (i : Nat) (hi : i < data.length),
        ciLookup (reload data).nameToOutlet (data.get ⟨i, hi⟩) = Option.some i) ∧
    (∀ (i : Nat) (hi : i < data.length),
        lookupOutlet (reload data).outletToName (i : Int)
          = Option.some (data.get ⟨i, hi⟩)) ∧
    (∀ e ∈ (reload data).nameToOutlet,
        lookupOutlet (reload data).outletToName (e.outlet : Int)
          = Option.some e.name) ∧
    (∀ p ∈ (reload data).outletToName,
        ciLookup (reload data).nameToOutlet p.2 = Option.some p.1) := by
  have hzip := zip_pairwise_keys data hdist
  have hmap : (reload data).nameToOutlet
      = (data.zip (List.range data.length)).map
          (fun p => (⟨lowerStr p.1, p.1, p.2⟩ : Entry)) :=
    ciOfList_eq_map _ hzip
  have hElen : ((data.zip (List.range data.length)).map
      (fun p => (⟨lowerStr p.1, p.1, p.2⟩ : Entry))).length = data.length := by
    simp [List.length_zip, List.length_range]
  have hEget : ∀ (j : Nat) (hj : j < ((data.zip (List.range data.length)).map
      (fun p => (⟨lowerStr p.1, p.1, p.2⟩ : Entry))).length),
      ((data.zip (List.range data.length)).map
          (fun p => (⟨lowerStr p.1, p.1, p.2⟩ : Entry))).get ⟨j, hj⟩
        = ⟨lowerStr (data.get ⟨j, by rw [hElen] at hj; exact hj⟩),
           data.get ⟨j, by rw [hElen] at hj; exact hj⟩, j⟩ := by
    intro j hj
    simp [List.get_eq_getElem, List.getElem_map, List.getElem_zip, List.getElem_range]
  have hRlen : ((List.range data.length).zip data).length = data.length := by
    simp [List.length_zip, List.length_range]
  have hRget : ∀ (j : Nat) (hj : j < ((List.range data.length).zip data).length),
      ((List.range data.length).zip data).get ⟨j, hj⟩
        = (j, data.get ⟨j, by rw [hRlen] at hj; exact hj⟩) := by
    intro j hj
    simp [List.get_eq_getElem, List.getElem_zip, List.getElem_range]
  have hdistg := List.pairwise_iff_getElem.mp hdist
  have h1 : ∀ (i : Nat) (hi : i < data.length),
      ciLookup (reload data).nameToOutlet (data.get ⟨i, hi⟩) = Option.some i := by
    intro i hi
    unfold ciLookup
    rw [hmap]
    have hi2 : i < ((data.zip (List.range data.length)).map
        (fun p => (⟨lowerStr p.1, p.1, p.2⟩ : Entry))).length := by
      rw [hElen]; exact hi
    rw [find?_at_position _ _ i hi2 ?hp ?hb]
    case hp =>
      rw [hEget i hi2]
      simp
    case hb =>
      intro j hj hji
      rw [hEget j hj]
      have hj2 : j < data.length := by rw [hElen] at hj; exact hj
      have hne := hdistg j i hj2 hi hji
      simpa [List.get_eq_getElem] using hne
    rw [hEget i hi2]
    rfl
  have h2 : ∀ (i : Nat) (hi : i < data.length),
      lookupOutlet (reload data).outletToName (i : Int)
        = Option.some (data.get ⟨i, hi⟩) := by
    intro i hi
    unfold lookupOutlet
    have hi2 : i < ((List.range data.length).zip data).length := by
      rw [hRlen]; exact hi
    have hfind : ((List.range data.length).zip data).find?
        (fun p => (p.1 : Int) = (i : Int))
        = Option.some (((List.range data.length).zip data).get ⟨i, hi2⟩) := by
      apply find?_at_position _ _ i hi2
      · rw [hRget i hi2]
        simp
      · intro j hj hji
        rw [hRget j hj]
        simp only [decide_eq_false_iff_not]
        intro hij
        omega
    show (((List.range data.length).zip data).find?
        (fun p => (p.1 : Int) = (i : Int))).map (fun p => p.2)
      = Option.some (data.get ⟨i, hi⟩)
    rw [hfind, hRget i hi2]
    rfl
  refine ⟨h1, h2, ?_, ?_⟩
  · intro e he
    rw [hmap] at he
    rcases List.mem_iff_getElem.mp he with ⟨j, hj, hE⟩
    have hj2 : j < data.length := by rw [hElen] at hj; exact hj
    have he2 : e = ⟨lowerStr (data.get ⟨j, hj2⟩), data.get ⟨j, hj2⟩, j⟩ := by
      rw [← hE]
      simp [List.get_eq_getElem, List.getElem_map, List.getElem_zip, List.getElem_range]
    rw [he2]
    exact h2 j hj2
  · intro p hp
    rcases List.mem_iff_getElem.mp hp with ⟨j, hj, hR⟩
    have hj' : j < ((List.range data.length).zip data).length := hj
    have hj2 : j < data.length := by rw [hRlen] at hj'; exact hj'
    have hp2 : p = (j, data.get ⟨j, hj2⟩) := by
      rw [← hR]
      show ((List.range data.length).zip data)[j] = (j, data.get ⟨j, hj2⟩)
      simp [List.get_eq_getElem, List.getElem_zip, List.getElem_range]
    rw [hp2]
    exact h1 j hj2

/-- C5, witness: reload with two distinct names builds mutually inverse
mappings. -/
theorem C5_witness :
    ciLookup (reload ["Light", "Fan"]).nameToOutlet "Light" = Option.some 0 ∧
    lookupOutlet (reload ["Light", "Fan"]).outletToName 1 = Option.some "Fan" := by
  have h := C5_amended ["Light", "Fan"] (by decide)
  exact ⟨h.1 0 (by decide), h.2.1 1 (by decide)⟩

/-- Inserting a fresh string key into a Python dict appends the pair. -/
theorem pyDictInsert_fresh (d : List (String × Bool)) (k : String) (v : Bool)
    (h : ∀ q ∈ d, q.1 ≠ k) :
    pyDictInsert d k v = d ++ [(k, v)] := by
  unfold pyDictInsert
  rw [if_neg]
  intro hany
  rcases List.any_eq_true.mp hany with ⟨q, hq, he⟩
  exact h q hq (by simpa using he)

/-- Building a Python dict from pairs with pairwise-distinct keys keeps every
pair, in order. -/
theorem foldl_pyDictInsert_nodup :
    ∀ (l acc : List (String × Bool)),
      (l.map Prod.fst).Nodup →
      (∀ p ∈ l, ∀ q ∈ acc, q.1 ≠ p.1) →
      l.foldl (fun d p => pyDictInsert d p.1 p.2) acc = acc ++ l := by
  intro l
  induction l with
  | nil => intro acc _ _; simp
  | cons x xs ih =>
    intro acc hnd hacc
    rw [List.map_cons, List.nodup_cons] at hnd
    have hstep : pyDictInsert acc x.1 x.2 = acc ++ [(x.1, x.2)] :=
      pyDictInsert_fresh acc x.1 x.2 (fun q hq => hacc x (List.mem_cons_self x xs) q hq)
    have hrec := ih (acc ++ [(x.1, x.2)]) hnd.2 (by
      intro p hp q hq
      rcases List.mem_append.mp hq with hq | hq
      · exact hacc p (List.mem_cons_of_mem x hp) q hq
      · have hqe : q = (x.1, x.2) := by simpa using hq
        rw [hqe]
        intro hfst
        exact hnd.1 (by rw [hfst]; exact List.mem_map_of_mem Prod.fst hp))
    calc (x :: xs).foldl (fun d p => pyDictInsert d p.1 p.2) acc
        = xs.foldl (fun d p => pyDictInsert d p.1 p.2) (pyDictInsert acc x.1 x.2) := rfl
      _ = xs.foldl (fun d p => pyDictInsert d p.1 p.2) (acc ++ [(x.1, x.2)]) := by
          rw [hstep]
      _ = acc ++ [(x.1, x.2)] ++ xs := hrec
      _ = acc ++ (x :: xs) := by simp

/-- Python dict construction is the identity on association lists with
pairwise-distinct keys. -/
theorem pyDict_nodup (l : List (String × Bool))
    (h : (l.map Prod.fst).Nodup) : pyDict l = l := by
  have hgo := foldl_pyDictInsert_nodup l [] h (by intro p _ q hq; cases hq)
  simpa [pyDict] using hgo

/-- `dict(zip(names, states))` is the plain pairing when the names are
distinct and the device answered one state per name. -/
theorem stateResult_nodup (names : List String) (states : List Bool)
    (hnd : names.Nodup) (hlen : states.length = names.length) :
    stateResult names states = names.zip states := by
  unfold stateResult
  apply pyDict_nodup
  rw [List.map_fst_zip names states (Nat.le_of_eq hlen.symm)]
  exact hnd

/-- The preparation phase of `state` on the `"all"` selector: the route is
`all;` and the name list is the full registry in insertion order. -/
theorem statePrepare_all (reg : Registry) (rd : List String)
    (h : reg.nameToOutlet ≠ []) :
    statePrepare reg rd (Outlets.one (OutletId.name "all"))
      = Except.ok ("all;", ciNames reg.nameToOutlet) := by
  have hc : checkOutlets reg rd = Except.ok (reg, 0) := (checkOutlets_cases reg rd).1 h
  unfold statePrepare
  rw [hc]
  rfl

/-- The preparation phase of `state` on a list argument: selector from the
resolved indices, names from the outlet-to-name dictionary, in request
order. -/
theorem statePrepare_many (reg : Registry) (rd : List String)
    (l : List OutletId) (indices : List Int) (names : List String)
    (h : reg.nameToOutlet ≠ [])
    (hres : resolveList reg.nameToOutlet l = Except.ok indices)
    (hne : indices ≠ [])
    (hnames : namesFor reg.outletToName indices = Except.ok names) :
    statePrepare reg rd (Outlets.many l)
      = Except.ok (indexSelector indices, names) := by
  have hc : checkOutlets reg rd = Except.ok (reg, 0) := (checkOutlets_cases reg rd).1 h
  have hlen : ¬ (indices.length = 0) := fun h0 => hne (List.length_eq_zero.mp h0)
  unfold statePrepare
  rw [hc]
  simp only [Outlets.isAll, Bool.false_eq_true, if_false, getOutletIndices,
    Outlets.toList, hres, if_neg hlen, hnames]

/-- The registered names of a freshly reloaded registry, in registry order,
are exactly the device-reported names (device response case-insensitively
distinct). -/
theorem ciNames_reload (data : List String)
    (hdist : data.Pairwise (fun a b => lowerStr a ≠ lowerStr b)) :
    ciNames (reload data).nameToOutlet = data := by
  have hzip := zip_pairwise_keys data hdist
  have hmap : (reload data).nameToOutlet
      = (data.zip (List.range data.length)).map
          (fun p => (⟨lowerStr p.1, p.1, p.2⟩ : Entry)) :=
    ciOfList_eq_map _ hzip
  rw [hmap]
  unfold ciNames
  rw [List.map_map]
  exact List.map_fst_zip data (List.range data.length)
    (Nat.le_of_eq (List.length_range data.length).symm)

/-- Well-formedness of the case-insensitive dictionary: every stored key is
the lower-casing of the stored original name, and keys are pairwise
distinct. -/
def CIWf (d : List Entry) : Prop :=
  (∀ e ∈ d, e.key = lowerStr e.name) ∧ d.Pairwise (fun a b => a.key ≠ b.key)

/-- Insertion preserves dictionary well-formedness. -/
theorem ciInsert_preserves_wf (d : List Entry) (n : String) (o : Nat)
    (h : CIWf d) : CIWf (ciInsert d n o) := by
  unfold ciInsert
  by_cases hany : d.any (fun e => e.key = lowerStr n) = true
  · rw [if_pos hany]
    constructor
    · intro e he
      rcases List.mem_map.mp he with ⟨e0, he0, hfe⟩
      by_cases hk : e0.key = lowerStr n
      · rw [← hfe, if_pos hk]
      · rw [← hfe, if_neg hk]
        exact h.1 e0 he0
    · have hkey : ∀ e0 : Entry,
          (if e0.key = lowerStr n then (⟨lowerStr n, n, o⟩ : Entry) else e0).key
            = e0.key := by
        intro e0
        by_cases hk : e0.key = lowerStr n
        · rw [if_pos hk, hk]
        · rw [if_neg hk]
      rw [List.pairwise_map]
      refine h.2.imp ?_
      intro a b hab
      rw [hkey a, hkey b]
      exact hab
  · rw [if_neg hany]
    have hfalse : d.any (fun e => e.key = lowerStr n) = false :=
      Bool.eq_false_iff.mpr hany
    have hfresh : ∀ e ∈ d, e.key ≠ lowerStr n := by
      intro e he
      have hne := List.any_eq_false.mp hfalse e he
      simpa using hne
    constructor
    · intro e he
      rcases List.mem_append.mp he with he | he
      · exact h.1 e he
      · have he2 : e = ⟨lowerStr n, n, o⟩ := by simpa using he
        rw [he2]
    · rw [List.pairwise_append]
      refine ⟨h.2, List.pairwise_singleton _ _, ?_⟩
      intro a ha b hb
      have hb2 : b = ⟨lowerStr n, n, o⟩ := by simpa using hb
      rw [hb2]
      exact hfresh a ha

/-- Every dictionary the constructor builds is well formed. -/
theorem ciOfList_wf (l : List (String × Nat)) : CIWf (ciOfList l) := by
  suffices h : ∀ (l : List (String × Nat)) (acc : List Entry), CIWf acc →
      CIWf (l.foldl (fun d p => ciInsert d p.1 p.2) acc) by
    exact h l [] ⟨fun e he => absurd he (List.not_mem_nil e), List.Pairwise.nil⟩
  intro l
  induction l with
  | nil => intro acc h; exact h
  | cons x xs ih => intro acc h; exact ih _ (ciInsert_preserves_wf acc x.1 x.2 h)

/-- The registered (original-case) names of a well-formed dictionary are
pairwise distinct. -/
theorem ciNames_nodup (d : List Entry) (h : CIWf d) : (ciNames d).Nodup := by
  have hpw : (d.map (fun e => e.name)).Pairwise (fun a b => a ≠ b) := by
    rw [List.pairwise_map]
    refine h.2.imp_of_mem ?_
    intro a b ha hb hk hname
    exact hk (by rw [h.1 a ha, h.1 b hb, hname])
  exact hpw

/-- C6, counterexample: the claim fails on registries loaded from a device
response that repeats a name.  After reload of [A, A] the single registered
name A is mapped to outlet 1, yet `state("all")` (device reporting states
[true, false] for outlets 0 and 1) returns A paired with true — the state
reported for outlet 0, not the state of the outlet registered under A; and the
request [0, 1] resolves to a non-empty index list with canonical names [A, A],
but the returned mapping is the single pair (A, false): it has one entry
instead of one per requested outlet, and the state of requested outlet 0 is
lost. -/
theorem C6_counterexample :
    statePrepare (reload ["A", "A"]) [] (Outlets.one (OutletId.name "all"))
        = Except.ok ("all;", ["A"]) ∧
    ciLookup (reload ["A", "A"]).nameToOutlet "A" = Option.some 1 ∧
    stateResult ["A"] [true, false] = [("A", true)] ∧
    statePrepare (reload ["A", "A"]) []
        (Outlets.many [OutletId.num 0, OutletId.num 1])
        = Except.ok ("=0,1", ["A", "A"]) ∧
    stateResult ["A", "A"] [true, false] = [("A", false)] := by
  exact ⟨rfl, rfl, rfl, rfl, rfl⟩

/-- C6, amended: for every registry loaded from a device response of pairwise
case-insensitively distinct names, `state("all")` prepares the `all;` selector
with the full registered name list — exactly the response names, in registry
order — and, once the device reports one boolean per outlet, returns those
names paired with their states in that order; a non-`"all"` argument that
resolves to a non-empty index list prepares the `=i1,i2,...` selector with the
canonical name of each requested outlet in request order and, when the
requested names are distinct and the device reports one state per request,
returns those names paired with the reported states.  (The counterexample
forces both restrictions: a repeated name collapses the returned dict.) -/
theorem C6_state_mapping (data : List String) (rd : List String)
    (states : List Bool)
    (hdist : data.Pairwise (fun a b => lowerStr a ≠ lowerStr b))
    (hne : data ≠ []) :
    (statePrepare (reload data) rd (Outlets.one (OutletId.name "all"))
        = Except.ok ("all;", data) ∧
      (states.length = data.length → stateResult data states = data.zip states)) ∧
    (∀ (l : List OutletId) (indices : List Int) (names : List String),
        resolveList (reload data).nameToOutlet l = Except.ok indices →
        indices ≠ [] →
        namesFor (reload data).outletToName indices = Except.ok names →
        statePrepare (reload data) rd (Outlets.many l)
            = Except.ok (indexSelector indices, names) ∧
        (names.Nodup → states.length = names.length →
          stateResult names states = names.zip states)) := by
  have hregne : (reload data).nameToOutlet ≠ [] := reload_ne_nil data hne
  have hnodup : data.Nodup := hdist.imp (fun h he => h (by rw [he]))
  constructor
  · constructor
    · rw [statePrepare_all (reload data) rd hregne, ciNames_reload data hdist]
    · intro hlen
      exact stateResult_nodup data states hnodup hlen
  · intro l indices names hres hine hnames
    constructor
    · exact statePrepare_many (reload data) rd l indices names hregne hres hine hnames
    · intro hnd hlen
      exact stateResult_nodup names states hnd hlen

/-- C6, witness: registry Light, Fan; `state("all")` prepares both names in
registry order and pairs them with the reported states. -/
theorem C6_witness :
    statePrepare (reload ["Light", "Fan"]) [] (Outlets.one (OutletId.name "all"))
        = Except.ok ("all;", ["Light", "Fan"]) ∧
    stateResult ["Light", "Fan"] [true, false]
        = [("Light", true), ("Fan", false)] := by
  have h := C6_state_mapping ["Light", "Fan"] [] [true, false]
    (by decide) (by decide)
  exact ⟨h.1.1, h.1.2 rfl⟩

end Sdssdli
